import Mathlib

/-!
Verification of the Transformer core of the `sequelize` English-to-SQL model.

The development shallowly embeds the Python sources:
  * `src/transformer/transformer.py` — the `Transformer` module, in particular the
    autoregressive `generate` loop;
  * `src/transformer/attention.py` — `MultiHeadAttention` with its optional external
    query/key/value path;
  * `src/transformer/common/attention.py` — the variant `MultiHeadAttention` that
    applies residual dropout after the output projection.
Submodules that the repository references but whose files are not among the sources
(`scaled_dp_attn.py`, `decoder.py`, `embedding.py`, `position.py`) are modelled from
the specification; their doc comments say so explicitly.

Tensors of rationals are embedded as index functions `Nat → ... → ℚ` with explicit
bounds carried by the surrounding sums, and a separate shape-level semantics tracks
the success or failure of `view`/`transpose`/`split`/`matmul` shape bookkeeping.
The exponential of softmax and the `1/sqrt(d_k)` scaling are abstracted as
parameters (`ex`, `scale`): every claim proved here holds for an arbitrary choice,
and counterexamples instantiate them concretely.
-/

namespace Sequelize

/-! ## The `generate` loop (`src/transformer/transformer.py`, lines 134-158)

`generate` first calls `self.eval()`, encodes the source once, initialises the
generated sequence to `[[start_token_idx]]`, and then iterates at most
`max_new_tokens` times: decode, take the last position's logits, softmax, sample
one token with `torch.multinomial`, append it, and break if it equals
`end_token_idx`.

The decode→generator→softmax→multinomial pipeline of one iteration is a function
of the model state, the fixed encoder memory and the tokens generated so far
(the random-number-generator state after `k` draws is determined by the seed and
the draws, which the growing sequence records), so it is embedded as one oracle
`sample : List Nat → Nat` giving the token drawn when the current generated
sequence is its argument. -/

/-- The `for _ in range(max_new_tokens)` loop of `Transformer.generate`
(transformer.py lines 142-156): sample a token from the oracle, append it,
stop early when it equals `endTok`. -/
def generateLoop (sample : List Nat → Nat) (endTok : Nat) :
    Nat → List Nat → List Nat
  | 0, gen => gen
  | n + 1, gen =>
      let t := sample gen
      let gen' := gen ++ [t]
      if t = endTok then gen' else generateLoop sample endTok n gen'

/-- `Transformer.generate` (transformer.py lines 134-158), with the per-step
decode/softmax/multinomial pipeline abstracted as `sample`.  The sequence is
initialised to the single start token and grown by `generateLoop`. -/
def generate (sample : List Nat → Nat) (maxNewTokens startTok endTok : Nat) :
    List Nat :=
  generateLoop sample endTok maxNewTokens [startTok]

/-! ## Module state and the `self.eval()` side effect (`generate`, lines 134-136)

`Transformer.__init__` registers the submodules `enc_block.p_emb.0` (source
`Embedding`), `enc_block.p_emb.1` (source `PositionalEncoding`), `enc_block.encoder`,
`dec_block.p_emb.0`, `dec_block.p_emb.1`, `dec_block.decoder` and `dec_block.gen`;
`self.eval()` sets the `training` flag of the module and of every submodule to
`False`.  `@torch.no_grad()` makes the body read-only on parameters, embedded by
the loop threading the state through unchanged. -/

/-- The mutable state of a `Transformer` module: one `training` flag per
registered submodule (the fixed tree built in `Transformer.__init__`) plus the
parameter set `P` (all weights and buffers). -/
structure TransformerState (P : Type) where
  training : Bool
  encEmbTraining : Bool
  encPosTraining : Bool
  encoderTraining : Bool
  decEmbTraining : Bool
  decPosTraining : Bool
  decoderTraining : Bool
  genTraining : Bool
  params : P

/-- `nn.Module.eval()`: recursively clear the `training` flag of the module and
of every submodule; parameters are untouched. -/
def evalMode {P : Type} (st : TransformerState P) : TransformerState P :=
  { st with
    training := false
    encEmbTraining := false
    encPosTraining := false
    encoderTraining := false
    decEmbTraining := false
    decPosTraining := false
    decoderTraining := false
    genTraining := false }

/-- The `generate` loop with the module state threaded through explicitly: each
iteration reads the state (the decode pipeline `sample` consumes it) and never
writes it, matching the `@torch.no_grad()` body. -/
def generateLoopSt {P : Type} (sample : TransformerState P → List Nat → Nat)
    (endTok : Nat) : Nat → TransformerState P → List Nat →
    List Nat × TransformerState P
  | 0, st, gen => (gen, st)
  | n + 1, st, gen =>
      let t := sample st gen
      let gen' := gen ++ [t]
      if t = endTok then (gen', st) else generateLoopSt sample endTok n st gen'

/-- `Transformer.generate` as a state transformer: `self.eval()` first
(line 136), then the sampling loop; returns the generated ids and the module
state after the call. -/
def generateSt {P : Type} (sample : TransformerState P → List Nat → Nat)
    (st : TransformerState P) (maxNewTokens startTok endTok : Nat) :
    List Nat × TransformerState P :=
  generateLoopSt sample endTok maxNewTokens (evalMode st) [startTok]

/-! ## Value-level attention semantics

Feature vectors and sequences are index functions into `ℚ`; every tensor
operation carries its bounds explicitly in the sums.  The exponential used by
softmax is abstracted as `ex` and the `1/sqrt(d_k)` factor as `scale`; dropout
layers are abstracted as their elementwise training-mode multiplier (`1` in
eval mode, `0` or `1/(1-p)` per kept/dropped element in training mode). -/

/-- Dot product of the first `dk` components of two feature vectors. -/
def dotQ (dk : Nat) (u v : Nat → ℚ) : ℚ :=
  ∑ t ∈ Finset.range dk, u t * v t

/-- `nn.Linear`: output channel `c` of `x ↦ W x + b` over `inF` input
features. -/
def linearQ (W : Nat → Nat → ℚ) (b : Nat → ℚ) (inF : Nat) (x : Nat → ℚ)
    (c : Nat) : ℚ :=
  (∑ e ∈ Finset.range inF, W c e * x e) + b c

/-- Modelled from the spec: the post-mask pre-normalization attention weight of
query position `i` against key position `j` in `ScaledDotProductAttention`
(`src/transformer/scaled_dp_attn.py` is referenced by `attention.py` but is not
among the sources; spec section 4.1).  A masked pair's score is set to negative
infinity before softmax, so its weight `exp(-inf)` is `0`; an allowed pair
contributes `ex (scale * (q_i · k_j))`. -/
def attnWeight (ex : ℚ → ℚ) (scale : ℚ) (dk : Nat) (mask : Nat → Nat → Bool)
    (q k : Nat → Nat → ℚ) (i j : Nat) : ℚ :=
  if mask i j then ex (scale * dotQ dk (q i) (k j)) else 0

/-- Modelled from the spec: softmax row `i` of the masked scaled scores, over
key positions `j < S` (spec section 4.1). -/
def softmaxRow (ex : ℚ → ℚ) (scale : ℚ) (S dk : Nat) (mask : Nat → Nat → Bool)
    (q k : Nat → Nat → ℚ) (i j : Nat) : ℚ :=
  attnWeight ex scale dk mask q k i j /
    ∑ l ∈ Finset.range S, attnWeight ex scale dk mask q k i l

/-- Modelled from the spec: `ScaledDotProductAttention` (spec section 4.1):
softmax of the masked scaled similarity, dropout on the attention-weight
distribution (`wdrop`), then the weighted sum of the values. -/
def sdpAttention (ex : ℚ → ℚ) (scale : ℚ) (wdrop : Nat → Nat → ℚ)
    (S dk : Nat) (mask : Nat → Nat → Bool) (q k v : Nat → Nat → ℚ)
    (i t : Nat) : ℚ :=
  ∑ j ∈ Finset.range S,
    wdrop i j * softmaxRow ex scale S dk mask q k i j * v j t

/-- The parameters of `MultiHeadAttention` (`src/transformer/attention.py`,
lines 20-22): the combined query/key/value projection
`c_attn : Linear(d_model, 3*d_model)` and the output projection
`c_proj : Linear(d_model, d_model)`. -/
structure MHAWeights where
  attnW : Nat → Nat → ℚ
  attnB : Nat → ℚ
  projW : Nat → Nat → ℚ
  projB : Nat → ℚ

/-- Channel `c` of `self.c_attn(x)` at position `s`, with model width
`E = nHead * hd` (`attention.py` line 49). -/
def cAttn (w : MHAWeights) (E : Nat) (x : Nat → Nat → ℚ) (s c : Nat) : ℚ :=
  linearQ w.attnW w.attnB E (x s) c

/-- The query tensor after `split(self.d_model, dim=2)`,
`view(B, S, n_head, E // n_head)` and `transpose(1, 2)` (`attention.py` lines
49-51): head `h`, position `s`, feature `t` reads channel `h*hd + t` of the
first `d_model` block of `c_attn(x)`. -/
def qHead (w : MHAWeights) (nHead hd : Nat) (x : Nat → Nat → ℚ)
    (h s t : Nat) : ℚ :=
  cAttn w (nHead * hd) x s (h * hd + t)

/-- The key tensor after split/view/transpose: the second `d_model` block of
`c_attn(x)`. -/
def kHead (w : MHAWeights) (nHead hd : Nat) (x : Nat → Nat → ℚ)
    (h s t : Nat) : ℚ :=
  cAttn w (nHead * hd) x s (nHead * hd + (h * hd + t))

/-- The value tensor after split/view/transpose: the third `d_model` block of
`c_attn(x)`. -/
def vHead (w : MHAWeights) (nHead hd : Nat) (x : Nat → Nat → ℚ)
    (h s t : Nat) : ℚ :=
  cAttn w (nHead * hd) x s (2 * (nHead * hd) + (h * hd + t))

/-- `MultiHeadAttention.forward` of `src/transformer/attention.py` in the
self-attention case (`qkv` empty, lines 43-63): query/key/value from
`c_attn(x)`, per-head scaled dot-product attention with the head-broadcast
mask, heads concatenated back (`y[s, e]` is head `e / hd`, feature `e % hd`)
and the final `c_proj` applied.  The result of `c_proj` is returned as is:
this file applies no residual dropout (its only dropout, `wdrop`, sits on the
attention weights inside `ScaledDotProductAttention`). -/
def mhaSelfForward (ex : ℚ → ℚ) (scale : ℚ) (wdrop : Nat → Nat → ℚ)
    (w : MHAWeights) (nHead hd S : Nat) (mask : Nat → Nat → Bool)
    (x : Nat → Nat → ℚ) (i c : Nat) : ℚ :=
  linearQ w.projW w.projB (nHead * hd)
    (fun e => sdpAttention ex scale wdrop S hd mask
      (qHead w nHead hd x (e / hd)) (kHead w nHead hd x (e / hd))
      (vHead w nHead hd x (e / hd)) i (e % hd)) c

/-- `MultiHeadAttention.forward` of `src/transformer/attention.py` in the
cross-attention case (`qkv` supplied, line 46): the externally supplied query,
key and value are taken as given (`c_attn` is skipped), split into heads,
attended with key/value positions ranging over the memory length `Skv`,
concatenated and projected by `c_proj`.  This is the value-level intent of
spec section 4.4; the source's `view(B, S, ...)` reshape of `k`/`v` with the
query's length raises a shape error whenever `Skv ≠ S` — that defect is the
subject of the shape-level semantics below. -/
def mhaCrossForward (ex : ℚ → ℚ) (scale : ℚ) (wdrop : Nat → Nat → ℚ)
    (w : MHAWeights) (nHead hd Skv : Nat) (mask : Nat → Nat → Bool)
    (q k v : Nat → Nat → ℚ) (i c : Nat) : ℚ :=
  linearQ w.projW w.projB (nHead * hd)
    (fun e => sdpAttention ex scale wdrop Skv hd mask
      (fun s t => q s (e / hd * hd + t)) (fun s t => k s (e / hd * hd + t))
      (fun s t => v s (e / hd * hd + t)) i (e % hd)) c

/-- `MultiHeadAttention.forward` of `src/transformer/common/attention.py`
(lines 25-40): query/key/value from `c_attn(x)`, per-head attention
(`F.scaled_dot_product_attention`, causal when the flag is set), heads
concatenated, `c_proj` applied, and — unlike the variant above — the result is
passed through `self.resid_dropout` before being returned; `rdrop` is that
residual dropout's elementwise multiplier. -/
def commonMhaForward (ex : ℚ → ℚ) (scale : ℚ) (wdrop rdrop : Nat → Nat → ℚ)
    (w : MHAWeights) (nHead hd S : Nat) (isCausal : Bool)
    (x : Nat → Nat → ℚ) (i c : Nat) : ℚ :=
  rdrop i c *
    linearQ w.projW w.projB (nHead * hd)
      (fun e => sdpAttention ex scale wdrop S hd
        (fun a b => if isCausal then decide (b ≤ a) else true)
        (qHead w nHead hd x (e / hd)) (kHead w nHead hd x (e / hd))
        (vHead w nHead hd x (e / hd)) i (e % hd)) c

/-! ## The decode path (`Transformer._decode` with a spec-modelled decoder)

`Transformer._decode` (transformer.py lines 96-114) runs the target ids
through `dec_block.p_emb` (an `Embedding` followed by `PositionalEncoding`)
and then the `Decoder` against the fixed encoder memory.  `embedding.py`,
`position.py` and `decoder.py` are referenced by `transformer.py` but are not
among the sources, so those components are modelled from spec sections 2, 4.3
and 4.4; the attention sublayers reuse the embedding of
`MultiHeadAttention.forward` from `src/transformer/attention.py` above.  The
model is in eval mode (as inside `generate`), so every dropout multiplier
is 1. -/

/-- Modelled from the spec: `dec_block.p_emb`, the `Embedding` followed by
`PositionalEncoding` (spec sections 2 and 3): token `tgt i` is looked up in
the embedding table, scaled, and the positional table row `i` is added;
position-wise in `i`. -/
def pEmb (embT : Nat → Nat → ℚ) (embScale : ℚ) (posT : Nat → Nat → ℚ)
    (tgt : Nat → Nat) (i e : Nat) : ℚ :=
  embScale * embT (tgt i) e + posT i e

/-- Modelled from the spec: the position-wise feed-forward sublayer (spec
section 4.3): two linear transforms with a nonlinearity `act` between. -/
def ffn (act : ℚ → ℚ) (W1 : Nat → Nat → ℚ) (b1 : Nat → ℚ)
    (W2 : Nat → Nat → ℚ) (b2 : Nat → ℚ) (dModel dHidden : Nat)
    (x : Nat → ℚ) (c : Nat) : ℚ :=
  linearQ W2 b2 dHidden (fun hh => act (linearQ W1 b1 dModel x hh)) c

/-- The parameters of one decoder block (spec section 4.4): the masked
self-attention `MultiHeadAttention`, the cross-attention
`MultiHeadAttention`, the feed-forward weights, and the three per-position
normalization maps, each consuming and producing one feature vector. -/
structure DecBlockParams where
  saW : MHAWeights
  caW : MHAWeights
  ffnW1 : Nat → Nat → ℚ
  ffnB1 : Nat → ℚ
  ffnW2 : Nat → Nat → ℚ
  ffnB2 : Nat → ℚ
  norm1 : (Nat → ℚ) → Nat → ℚ
  norm2 : (Nat → ℚ) → Nat → ℚ
  norm3 : (Nat → ℚ) → Nat → ℚ

/-- The decoder-wide constants: the abstracted softmax exponential and score
scaling, the feed-forward nonlinearity, head count and width, feed-forward
width, the target embedding table with its scaling, the positional table, and
the stacked blocks. -/
structure DecoderModel where
  ex : ℚ → ℚ
  scale : ℚ
  act : ℚ → ℚ
  nHead : Nat
  hd : Nat
  dHidden : Nat
  embT : Nat → Nat → ℚ
  embScale : ℚ
  posT : Nat → Nat → ℚ
  blocks : List DecBlockParams

/-- Modelled from the spec: sublayer (a) of a `DecoderBlock` (spec section
4.4): masked self-attention over the `S` target positions of the hidden
state, residual add, normalize. -/
def selfSub (M : DecoderModel) (P : DecBlockParams) (S : Nat)
    (mask : Nat → Nat → Bool) (x : Nat → Nat → ℚ) : Nat → Nat → ℚ :=
  fun i c => P.norm1 (fun e => x i e +
    mhaSelfForward M.ex M.scale (fun _ _ => 1) P.saW M.nHead M.hd S mask
      x i e) c

/-- Modelled from the spec: sublayer (b) of a `DecoderBlock` (spec section
4.4): cross-attention with the query from the block's own hidden state and
key/value from the `Sm` positions of the encoder memory, masked by `memMask`,
residual add, normalize. -/
def crossSub (M : DecoderModel) (P : DecBlockParams) (Sm : Nat)
    (memMask : Nat → Nat → Bool) (mem : Nat → Nat → ℚ)
    (x : Nat → Nat → ℚ) : Nat → Nat → ℚ :=
  fun i c => P.norm2 (fun e => x i e +
    mhaCrossForward M.ex M.scale (fun _ _ => 1) P.caW M.nHead M.hd Sm memMask
      x mem mem i e) c

/-- Modelled from the spec: sublayer (c) of a `DecoderBlock` (spec section
4.4): position-wise feed-forward, residual add, normalize. -/
def ffnSub (M : DecoderModel) (P : DecBlockParams)
    (x : Nat → Nat → ℚ) : Nat → Nat → ℚ :=
  fun i c => P.norm3 (fun e => x i e +
    ffn M.act P.ffnW1 P.ffnB1 P.ffnW2 P.ffnB2 (M.nHead * M.hd) M.dHidden
      (x i) e) c

/-- Modelled from the spec: one `DecoderBlock` (spec section 4.4): the three
sublayers (a), (b), (c) in order. -/
def decBlock (M : DecoderModel) (P : DecBlockParams) (S Sm : Nat)
    (mask memMask : Nat → Nat → Bool) (mem : Nat → Nat → ℚ)
    (x : Nat → Nat → ℚ) : Nat → Nat → ℚ :=
  ffnSub M P (crossSub M P Sm memMask mem (selfSub M P S mask x))

/-- Modelled from the spec: the `Decoder` — `n_stack` identical blocks applied
sequentially, the output of block `i` feeding block `i+1` (spec section
4.4). -/
def decoderStack (M : DecoderModel) (blocks : List DecBlockParams) (S Sm : Nat)
    (mask memMask : Nat → Nat → Bool) (mem : Nat → Nat → ℚ)
    (x : Nat → Nat → ℚ) : Nat → Nat → ℚ :=
  blocks.foldl (fun h P => decBlock M P S Sm mask memMask mem h) x

/-- `Transformer._decode` (transformer.py lines 96-114): embed and
positionally encode the `S` target ids, then run the decoder stack against
the fixed `Sm`-position encoder memory, with the target mask `mask` and the
memory mask `memMask` as supplied by the caller (`generate` passes no mask,
i.e. everything allowed). -/
def decodeOut (M : DecoderModel) (tgt : Nat → Nat) (S Sm : Nat)
    (mask memMask : Nat → Nat → Bool) (mem : Nat → Nat → ℚ) :
    Nat → Nat → ℚ :=
  decoderStack M M.blocks S Sm mask memMask mem
    (fun i e => pEmb M.embT M.embScale M.posT tgt i e)

/-- A concrete one-block decoder instance used to exercise the decode path:
width 1 (one head of width 1), identity normalizations and nonlinearity,
identity softmax exponential, embedding table sending a token id to itself,
no positional offsets, all-ones self-attention weights, and zeroed
cross-attention and feed-forward weights. -/
def demoDecoder : DecoderModel :=
  ⟨fun a => a, 1, fun a => a, 1, 1, 1, fun t _ => (t : ℚ), 1, fun _ _ => 0,
   [⟨⟨fun _ _ => 1, fun _ => 0, fun _ _ => 1, fun _ => 0⟩,
     ⟨fun _ _ => 0, fun _ => 0, fun _ _ => 0, fun _ => 0⟩,
     fun _ _ => 0, fun _ => 0, fun _ _ => 0, fun _ => 0,
     fun v => v, fun v => v, fun v => v⟩]⟩

/-- Demo target ids: token 5 at position 0, token 7 afterwards. -/
def demoTgt : Nat → Nat :=
  fun i => if i = 0 then 5 else 7

/-! ## Construction (`MultiHeadAttention.__init__`) -/

/-- The configuration stored by a successfully constructed
`MultiHeadAttention`: `self.d_model` and `self.n_head`. -/
structure MHAConfig where
  dModel : Nat
  nHead : Nat
deriving DecidableEq

/-- `MultiHeadAttention.__init__` (`src/transformer/attention.py` lines 15-27,
identically `src/transformer/common/attention.py` lines 8-22): the statement
`assert d_model % n_head == 0` runs before the `c_attn` and `c_proj` layers
are created, so an indivisible configuration fails at construction time,
before any tensor operation; a divisible one constructs the module. -/
def mhaInit (dModel nHead : Nat) : Option MHAConfig :=
  if dModel % nHead = 0 then some ⟨dModel, nHead⟩ else none

/-! ## Shape-level tensor semantics

The success or failure of `MultiHeadAttention.forward` is decided by the shape
bookkeeping of `size`/`split`/`view`/`transpose`/matmul, independent of the
stored numbers; this section embeds exactly that bookkeeping.  A shape is the
list of dimension sizes, and each operation returns `none` where the
corresponding PyTorch call raises. -/

/-- A tensor shape: its list of dimension sizes. -/
abbrev Shape := List Nat

/-- `Tensor.view`: reinterpreting the flat data succeeds iff the element
counts agree. -/
def viewShape (s target : Shape) : Option Shape :=
  if s.prod = target.prod then some target else none

/-- `transpose(1, 2)` on a 4-D tensor swaps the second and third dimensions. -/
def transpose12 (s : Shape) : Option Shape :=
  match s with
  | [a, b, c, d] => some [a, c, b, d]
  | _ => none

/-- `nn.Linear(inF, outF)` on a 3-D input: the last dimension must equal
`inF` and becomes `outF`. -/
def linearShape (inF outF : Nat) (s : Shape) : Option Shape :=
  match s with
  | [b, n, e] => if e = inF then some [b, n, outF] else none
  | _ => none

/-- `t.split(size, dim=2)` destructured into exactly three chunks, as
`q, k, v = self.c_attn(x).split(self.d_model, dim=2)` requires: the split
yields `⌈e / size⌉` chunks, so destructuring needs `2*size < e ≤ 3*size`; the
first two chunks have width `size`, the last `e - 2*size`. -/
def split3Shape (size : Nat) (s : Shape) :
    Option (Shape × Shape × Shape) :=
  match s with
  | [b, n, e] =>
      if 2 * size < e ∧ e ≤ 3 * size ∧ 0 < size then
        some ([b, n, size], [b, n, size], [b, n, e - 2 * size])
      else none
  | _ => none

/-- `unsqueeze(1)`: insert a singleton dimension in second place. -/
def unsqueeze1 (s : Shape) : Option Shape :=
  match s with
  | a :: rest => some (a :: 1 :: rest)
  | [] => none

/-- Elementwise broadcast compatibility from the trailing dimension inward:
every dimension of the first shape must equal the target's or be `1`. -/
def broadcastDims : List Nat → List Nat → Bool
  | [], _ => true
  | _ :: _, [] => false
  | a :: as, b :: bs => (a = b || a = 1) && broadcastDims as bs

/-- `m` broadcasts against the target shape `t`. -/
def broadcastsTo (m t : Shape) : Bool :=
  broadcastDims m.reverse t.reverse

/-- Modelled from the spec: the shape contract of the attention primitive
(spec sections 3 and 4.1; `scaled_dp_attn.py` is not among the sources):
`Q·Kᵀ` matches `[B, H, Sq, D]` against `[B, H, Sk, D]` giving scores
`[B, H, Sq, Sk]`; the optional mask must broadcast against the scores; the
weighted sum `scores·V` requires the value length to equal `Sk` and produces
`[B, H, Sq, Dv]`. -/
def sdpaShape (q k v : Shape) (mask : Option Shape) : Option Shape :=
  match q, k, v with
  | [b1, h1, sq, d1], [b2, h2, sk, d2], [b3, h3, sv, dv] =>
      if b1 = b2 ∧ h1 = h2 ∧ d1 = d2 ∧ b1 = b3 ∧ h1 = h3 ∧ sk = sv ∧
          (mask.elim true fun m => broadcastsTo m [b1, h1, sq, sk]) = true then
        some [b1, h1, sq, dv]
      else none
  | _, _, _ => none

/-- The shape behaviour of `MultiHeadAttention.forward`
(`src/transformer/attention.py`, lines 30-63): `B, S, E = x.size()` requires a
3-D `x`; external `q, k, v` are taken when supplied (cross-attention),
otherwise produced by `c_attn` and `split`; then **all three** are reshaped
with `view(B, S, n_head, E // n_head)` — the length `S` and width `E` of `x`,
whatever the actual sizes of `k` and `v` — transposed to put heads in front,
attended (with the mask unsqueezed at dim 1 when present), transposed back,
merged by `view(B, S, E)` and projected by `c_proj`. -/
def mhaForwardShape (dModel nHead : Nat) (x : Shape)
    (qkv : Option (Shape × Shape × Shape)) (mask : Option Shape) :
    Option Shape :=
  match x with
  | [B, S, E] => do
      let qkvT ← match qkv with
        | some t => some t
        | none =>
            (linearShape dModel (3 * dModel) [B, S, E]).bind
              (split3Shape dModel)
      let qh ← viewShape qkvT.1 [B, S, nHead, E / nHead]
      let qt ← transpose12 qh
      let kh ← viewShape qkvT.2.1 [B, S, nHead, E / nHead]
      let kt ← transpose12 kh
      let vh ← viewShape qkvT.2.2 [B, S, nHead, E / nHead]
      let vt ← transpose12 vh
      let maskU ← match mask with
        | none => some (none : Option Shape)
        | some m => (unsqueeze1 m).map some
      let y ← sdpaShape qt kt vt maskU
      let yt ← transpose12 y
      let ym ← viewShape yt [B, S, E]
      linearShape dModel dModel ym
  | _ => none

end Sequelize

namespace Sequelize

/-! ## Helper lemmas about the generation loop -/

theorem generateLoop_eq_append (sample : List Nat → Nat) (endTok : Nat) :
    ∀ (n : Nat) (gen : List Nat),
      ∃ rest, generateLoop sample endTok n gen = gen ++ rest := by
  intro n
  induction n with
  | zero => intro gen; exact ⟨[], by simp [generateLoop]⟩
  | succ k ih =>
      intro gen
      by_cases h : sample gen = endTok
      · exact ⟨[sample gen], by simp [generateLoop, h]⟩
      · obtain ⟨r, hr⟩ := ih (gen ++ [sample gen])
        exact ⟨[sample gen] ++ r, by simp [generateLoop, h, hr]⟩

theorem generateLoop_length_le (sample : List Nat → Nat) (endTok : Nat) :
    ∀ (n : Nat) (gen : List Nat),
      (generateLoop sample endTok n gen).length ≤ gen.length + n := by
  intro n
  induction n with
  | zero => intro gen; simp [generateLoop]
  | succ k ih =>
      intro gen
      by_cases h : sample gen = endTok
      · simp only [generateLoop, h, if_true, List.length_append,
          List.length_cons, List.length_nil]
        omega
      · have := ih (gen ++ [sample gen])
        simp only [generateLoop, h, if_false, List.length_append,
          List.length_cons, List.length_nil] at this ⊢
        omega

theorem generateLoop_length_ge (sample : List Nat → Nat) (endTok : Nat) :
    ∀ (n : Nat) (gen : List Nat),
      gen.length ≤ (generateLoop sample endTok n gen).length := by
  intro n
  induction n with
  | zero => intro gen; simp [generateLoop]
  | succ k ih =>
      intro gen
      by_cases h : sample gen = endTok
      · simp [generateLoop, h]
      · have := ih (gen ++ [sample gen])
        simp only [generateLoop, h, if_false] at this ⊢
        simp only [List.length_append, List.length_cons, List.length_nil] at this
        omega

theorem generateLoop_one_step (sample : List Nat → Nat) (endTok : Nat)
    (n : Nat) (gen : List Nat) (hn : 1 ≤ n) :
    gen.length + 1 ≤ (generateLoop sample endTok n gen).length := by
  cases n with
  | zero => omega
  | succ k =>
      by_cases h : sample gen = endTok
      · simp [generateLoop, h]
      · have := generateLoop_length_ge sample endTok k (gen ++ [sample gen])
        simp only [generateLoop, h, if_false]
        simp only [List.length_append, List.length_cons, List.length_nil] at this
        omega

theorem generateLoop_early_stop (sample : List Nat → Nat) (endTok : Nat) :
    ∀ (n : Nat) (gen : List Nat),
      (generateLoop sample endTok n gen).length < gen.length + n →
      (generateLoop sample endTok n gen).getLast? = some endTok := by
  intro n
  induction n with
  | zero => intro gen h; simp [generateLoop] at h
  | succ k ih =>
      intro gen h
      by_cases he : sample gen = endTok
      · simp [generateLoop, he]
      · simp only [generateLoop, he, if_false] at h ⊢
        apply ih (gen ++ [sample gen])
        simp only [List.length_append, List.length_cons, List.length_nil]
        omega

theorem generateLoop_not_mem_end (sample : List Nat → Nat) (endTok : Nat) :
    ∀ (n : Nat) (gen : List Nat), endTok ∉ gen →
      ∀ i, i + 1 < (generateLoop sample endTok n gen).length →
        (generateLoop sample endTok n gen).get? i ≠ some endTok := by
  intro n
  induction n with
  | zero =>
      intro gen hmem i _ hget
      exact hmem (List.get?_mem hget)
  | succ k ih =>
      intro gen hmem i hi hget
      by_cases he : sample gen = endTok
      · simp only [generateLoop, he, if_true] at hi hget
        rw [List.length_append, List.length_cons, List.length_nil] at hi
        have hlt : i < gen.length := by omega
        rw [List.get?_append hlt] at hget
        exact hmem (List.get?_mem hget)
      · simp only [generateLoop, he, if_false] at hi hget
        have hmem' : endTok ∉ gen ++ [sample gen] := by
          simp [hmem, he]
          intro hc
          exact he hc.symm
        exact ih (gen ++ [sample gen]) hmem' i hi hget

theorem generateLoop_sampled_not_end (sample : List Nat → Nat) (endTok : Nat) :
    ∀ (n : Nat) (gen : List Nat) (i : Nat), gen.length ≤ i →
      i + 1 < (generateLoop sample endTok n gen).length →
        (generateLoop sample endTok n gen).get? i ≠ some endTok := by
  intro n
  induction n with
  | zero =>
      intro gen i hge hi
      simp only [generateLoop] at hi
      omega
  | succ k ih =>
      intro gen i hge hi hget
      by_cases he : sample gen = endTok
      · simp only [generateLoop, he, if_true] at hi hget
        rw [List.length_append, List.length_cons, List.length_nil] at hi
        omega
      · simp only [generateLoop, he, if_false] at hi hget
        rcases Nat.lt_or_ge i (gen.length + 1) with hlt | hge'
        · have hieq : i = gen.length := by omega
          obtain ⟨rest, hrest⟩ :=
            generateLoop_eq_append sample endTok k (gen ++ [sample gen])
          rw [hrest] at hget
          have hilen : i < (gen ++ [sample gen]).length := by
            simp only [List.length_append, List.length_cons, List.length_nil]
            omega
          rw [List.get?_append hilen] at hget
          rw [hieq] at hget
          rw [List.get?_append_right (Nat.le_refl _)] at hget
          simp at hget
          exact he hget
        · have : (gen ++ [sample gen]).length ≤ i := by
            simp only [List.length_append, List.length_cons, List.length_nil]
            omega
          exact ih (gen ++ [sample gen]) i this hi hget

theorem generateLoopSt_state {P : Type}
    (sample : TransformerState P → List Nat → Nat) (endTok : Nat) :
    ∀ (n : Nat) (st : TransformerState P) (gen : List Nat),
      (generateLoopSt sample endTok n st gen).2 = st := by
  intro n
  induction n with
  | zero => intro st gen; simp [generateLoopSt]
  | succ k ih =>
      intro st gen
      by_cases h : sample st gen = endTok
      · simp [generateLoopSt, h]
      · simp only [generateLoopSt, h, if_false]
        exact ih st (gen ++ [sample st gen])

end Sequelize

namespace Sequelize

/-! ## Claims about the generation loop -/

/-- C1 (amended): provided `max_new_tokens ≥ 1` and the two marker ids differ,
`Transformer.generate` returns a sequence whose first element is
`start_token_idx`, whose length is between 2 and `max_new_tokens + 1` inclusive,
and in which `end_token_idx` occurs at most as the last element. -/
theorem generate_marker_bounds (sample : List Nat → Nat)
    (maxNewTokens startTok endTok : Nat)
    (hmax : 1 ≤ maxNewTokens) (hne : startTok ≠ endTok) :
    (generate sample maxNewTokens startTok endTok).head? = some startTok ∧
    2 ≤ (generate sample maxNewTokens startTok endTok).length ∧
    (generate sample maxNewTokens startTok endTok).length ≤ maxNewTokens + 1 ∧
    ∀ i, i + 1 < (generate sample maxNewTokens startTok endTok).length →
      (generate sample maxNewTokens startTok endTok).get? i ≠ some endTok := by
  refine ⟨?_, ?_, ?_, ?_⟩
  · obtain ⟨rest, hr⟩ :=
      generateLoop_eq_append sample endTok maxNewTokens [startTok]
    rw [generate, hr]
    simp
  · have := generateLoop_one_step sample endTok maxNewTokens [startTok] hmax
    simpa [generate] using this
  · have := generateLoop_length_le sample endTok maxNewTokens [startTok]
    simp only [List.length_cons, List.length_nil] at this
    rw [generate]
    omega
  · intro i hi
    apply generateLoop_not_mem_end sample endTok maxNewTokens [startTok] _ i hi
    simp only [List.mem_singleton]
    intro hc
    exact hne (hc.symm)

/-- C1, witness for `generate_marker_bounds`: a run with three allowed steps,
start id 1 and end id 2. -/
theorem generate_marker_bounds_witness :
    (generate (fun xs => xs.length) 3 1 2).head? = some 1 ∧
    2 ≤ (generate (fun xs => xs.length) 3 1 2).length ∧
    (generate (fun xs => xs.length) 3 1 2).length ≤ 3 + 1 ∧
    (generate (fun xs => xs.length) 3 1 2).get? 0 ≠ some 2 :=
  ⟨(generate_marker_bounds (fun xs => xs.length) 3 1 2 (by decide) (by decide)).1,
   (generate_marker_bounds (fun xs => xs.length) 3 1 2 (by decide) (by decide)).2.1,
   (generate_marker_bounds (fun xs => xs.length) 3 1 2 (by decide) (by decide)).2.2.1,
   (generate_marker_bounds (fun xs => xs.length) 3 1 2 (by decide) (by decide)).2.2.2
     0 (by decide)⟩

/-- C1, counterexample to the unrestricted claim: with `max_new_tokens = 0` the
returned sequence has length 1 (not ≥ 2), and with `start_token_idx =
end_token_idx = 2` the end id occurs at position 0 of a length-2 result, i.e.
not only as the last element. -/
theorem generate_marker_bounds_cex :
    (generate (fun _ => 5) 0 1 2).length = 1 ∧
    (generate (fun _ => 2) 1 2 2).get? 0 = some 2 ∧
    (generate (fun _ => 2) 1 2 2).length = 2 := by
  decide

/-- C3: the `generate` loop always terminates after at most `max_new_tokens`
decode-sample-append iterations (so the result holds at most
`max_new_tokens + 1` ids); if it stopped before exhausting the budget then the
last appended token is `end_token_idx`, and no token sampled before the final
one equals `end_token_idx` — the loop stops as soon as the end id is sampled or
the budget is spent, whichever comes first. -/
theorem generate_terminates_bounded (sample : List Nat → Nat)
    (maxNewTokens startTok endTok : Nat) :
    (generate sample maxNewTokens startTok endTok).length ≤ maxNewTokens + 1 ∧
    ((generate sample maxNewTokens startTok endTok).length < maxNewTokens + 1 →
      (generate sample maxNewTokens startTok endTok).getLast? = some endTok) ∧
    ∀ i, 1 ≤ i →
      i + 1 < (generate sample maxNewTokens startTok endTok).length →
      (generate sample maxNewTokens startTok endTok).get? i ≠ some endTok := by
  refine ⟨?_, ?_, ?_⟩
  · have := generateLoop_length_le sample endTok maxNewTokens [startTok]
    simp only [List.length_cons, List.length_nil] at this
    rw [generate]
    omega
  · intro hlt
    apply generateLoop_early_stop sample endTok maxNewTokens [startTok]
    simp only [List.length_cons, List.length_nil]
    rw [generate] at hlt
    omega
  · intro i hi hlen
    exact generateLoop_sampled_not_end sample endTok maxNewTokens [startTok] i
      (by simpa using hi) hlen

/-- C3, witness for `generate_terminates_bounded`: a sampler that immediately
draws the end id 2 stops after one of the two allowed iterations. -/
theorem generate_terminates_bounded_witness :
    (generate (fun _ => 2) 2 1 2).length ≤ 2 + 1 ∧
    (generate (fun _ => 2) 2 1 2).getLast? = some 2 :=
  ⟨(generate_terminates_bounded (fun _ => 2) 2 1 2).1,
   (generate_terminates_bounded (fun _ => 2) 2 1 2).2.1 (by decide)⟩

/-- C9: `generate` is a deterministic function of its sampling oracle — with
the randomness source fixed (the oracle records the seeded
decode→softmax→multinomial pipeline), two runs on the same model and input
produce identical output id sequences. -/
theorem generate_deterministic (f g : List Nat → Nat)
    (maxNewTokens startTok endTok : Nat) (h : ∀ xs, f xs = g xs) :
    generate f maxNewTokens startTok endTok =
      generate g maxNewTokens startTok endTok := by
  have hfg : f = g := funext h
  rw [hfg]

/-- C9, witness for `generate_deterministic`, at the end-to-end scenario
parameters `max_new_tokens = 10`, `start_token_idx = 1`, `end_token_idx = 2`:
two syntactically different but extensionally equal samplers (two runs from
the same seed) give the same output sequence. -/
theorem generate_deterministic_witness :
    generate (fun xs => xs.length + 1) 10 1 2 =
      generate (fun xs => 1 + xs.length) 10 1 2 :=
  generate_deterministic (fun xs => xs.length + 1) (fun xs => 1 + xs.length)
    10 1 2 (fun xs => Nat.add_comm xs.length 1)

/-- C10: `Transformer.generate` switches the module to evaluation mode as a
persistent side effect — after the call the `training` flag of the
`Transformer` and of every registered submodule is `false` — and, apart from
the flags, it modifies no parameters or buffers (the `no_grad` body only reads
the state). -/
theorem generate_eval_frame {P : Type}
    (sample : TransformerState P → List Nat → Nat) (st : TransformerState P)
    (maxNewTokens startTok endTok : Nat) :
    (generateSt sample st maxNewTokens startTok endTok).2.training = false ∧
    (generateSt sample st maxNewTokens startTok endTok).2.encEmbTraining = false ∧
    (generateSt sample st maxNewTokens startTok endTok).2.encPosTraining = false ∧
    (generateSt sample st maxNewTokens startTok endTok).2.encoderTraining = false ∧
    (generateSt sample st maxNewTokens startTok endTok).2.decEmbTraining = false ∧
    (generateSt sample st maxNewTokens startTok endTok).2.decPosTraining = false ∧
    (generateSt sample st maxNewTokens startTok endTok).2.decoderTraining = false ∧
    (generateSt sample st maxNewTokens startTok endTok).2.genTraining = false ∧
    (generateSt sample st maxNewTokens startTok endTok).2.params = st.params := by
  have h : (generateSt sample st maxNewTokens startTok endTok).2 = evalMode st :=
    generateLoopSt_state sample endTok maxNewTokens (evalMode st) [startTok]
  rw [h]
  simp [evalMode]

end Sequelize

namespace Sequelize

/-! ## Congruence lemmas for causally masked attention -/

theorem cAttn_congr (w : MHAWeights) (E : Nat) (x x' : Nat → Nat → ℚ)
    (s c : Nat) (h : ∀ e, x s e = x' s e) :
    cAttn w E x s c = cAttn w E x' s c := by
  unfold cAttn linearQ
  congr 1
  apply Finset.sum_congr rfl
  intro e _
  rw [h e]

theorem attnWeight_causal_congr (ex : ℚ → ℚ) (scale : ℚ) (dk : Nat)
    (mask : Nat → Nat → Bool) (q q' k k' : Nat → Nat → ℚ) (i j : Nat)
    (hmask : ∀ a b, mask a b = true → b ≤ a)
    (hq : ∀ e, q i e = q' i e)
    (hk : ∀ l, l ≤ i → ∀ e, k l e = k' l e) :
    attnWeight ex scale dk mask q k i j =
      attnWeight ex scale dk mask q' k' i j := by
  unfold attnWeight
  by_cases hm : mask i j
  · have hji : j ≤ i := hmask i j hm
    have hdot : dotQ dk (q i) (k j) = dotQ dk (q' i) (k' j) := by
      unfold dotQ
      apply Finset.sum_congr rfl
      intro e _
      rw [hq e, hk j hji e]
    simp only [hm, if_true, hdot]
  · simp [hm]

theorem attnWeight_future_zero (ex : ℚ → ℚ) (scale : ℚ) (dk : Nat)
    (mask : Nat → Nat → Bool) (q k : Nat → Nat → ℚ) (i j : Nat)
    (hmask : ∀ a b, mask a b = true → b ≤ a) (hij : i < j) :
    attnWeight ex scale dk mask q k i j = 0 := by
  unfold attnWeight
  by_cases hm : mask i j
  · exact absurd (hmask i j hm) (by omega)
  · simp [hm]

/-- Causally masked scaled dot-product attention at query row `i < m` is
unchanged when the key span is extended from `m` to `n ≥ m` positions and the
query/key/value rows at positions `≤ i` are replaced by equal rows: masked
future positions contribute weight `0` to both the normalizer and the weighted
sum. -/
theorem sdpAttention_causal_congr (ex : ℚ → ℚ) (scale : ℚ)
    (wdrop : Nat → Nat → ℚ) (m n dk : Nat) (mask : Nat → Nat → Bool)
    (q q' k k' v v' : Nat → Nat → ℚ) (i t : Nat)
    (hmask : ∀ a b, mask a b = true → b ≤ a)
    (him : i < m) (hmn : m ≤ n)
    (hq : ∀ e, q i e = q' i e)
    (hk : ∀ l, l ≤ i → ∀ e, k l e = k' l e)
    (hv : ∀ l, l ≤ i → ∀ e, v l e = v' l e) :
    sdpAttention ex scale wdrop n dk mask q k v i t =
      sdpAttention ex scale wdrop m dk mask q' k' v' i t := by
  have hweq : ∀ j, attnWeight ex scale dk mask q k i j =
      attnWeight ex scale dk mask q' k' i j :=
    fun j => attnWeight_causal_congr ex scale dk mask q q' k k' i j hmask hq hk
  have hden : (∑ l ∈ Finset.range n, attnWeight ex scale dk mask q k i l)
      = ∑ l ∈ Finset.range m, attnWeight ex scale dk mask q' k' i l := by
    have h1 : (∑ l ∈ Finset.range m, attnWeight ex scale dk mask q k i l)
        = ∑ l ∈ Finset.range n, attnWeight ex scale dk mask q k i l := by
      apply Finset.sum_subset (Finset.range_subset.mpr hmn)
      intro l hln hlm
      simp only [Finset.mem_range] at hln hlm
      exact attnWeight_future_zero ex scale dk mask q k i l hmask (by omega)
    rw [← h1]
    exact Finset.sum_congr rfl (fun l _ => hweq l)
  unfold sdpAttention softmaxRow
  rw [hden]
  have h2 : (∑ j ∈ Finset.range n, wdrop i j *
        (attnWeight ex scale dk mask q k i j /
          ∑ l ∈ Finset.range m, attnWeight ex scale dk mask q' k' i l) * v j t)
      = ∑ j ∈ Finset.range n, wdrop i j *
        (attnWeight ex scale dk mask q' k' i j /
          ∑ l ∈ Finset.range m, attnWeight ex scale dk mask q' k' i l) * v' j t := by
    apply Finset.sum_congr rfl
    intro j _
    rcases le_or_lt j i with hji | hij
    · rw [hweq j, hv j hji t]
    · rw [attnWeight_future_zero ex scale dk mask q k i j hmask hij,
        attnWeight_future_zero ex scale dk mask q' k' i j hmask hij]
      simp
  rw [h2]
  symm
  apply Finset.sum_subset (Finset.range_subset.mpr hmn)
  intro j hjn hjm
  simp only [Finset.mem_range] at hjn hjm
  rw [attnWeight_future_zero ex scale dk mask q' k' i j hmask (by omega)]
  simp

/-- Causally masked multi-head self-attention at query row `i < m` is
unchanged when the sequence length is extended from `m` to `n ≥ m` positions
and the input rows at positions `≤ i` are kept equal. -/
theorem mhaSelfForward_causal_congr (ex : ℚ → ℚ) (scale : ℚ)
    (wdrop : Nat → Nat → ℚ) (w : MHAWeights) (nHead hd m n : Nat)
    (mask : Nat → Nat → Bool) (x x' : Nat → Nat → ℚ) (i c : Nat)
    (hmask : ∀ a b, mask a b = true → b ≤ a) (him : i < m) (hmn : m ≤ n)
    (hagree : ∀ j, j ≤ i → ∀ e, x j e = x' j e) :
    mhaSelfForward ex scale wdrop w nHead hd n mask x i c =
      mhaSelfForward ex scale wdrop w nHead hd m mask x' i c := by
  unfold mhaSelfForward linearQ
  congr 1
  apply Finset.sum_congr rfl
  intro e _
  congr 1
  apply sdpAttention_causal_congr ex scale wdrop m n hd mask _ _ _ _ _ _ i
    (e % hd) hmask him hmn
  · intro u
    unfold qHead
    exact cAttn_congr w (nHead * hd) x x' i _ (hagree i (le_refl i))
  · intro l hl u
    unfold kHead
    exact cAttn_congr w (nHead * hd) x x' l _ (hagree l hl)
  · intro l hl u
    unfold vHead
    exact cAttn_congr w (nHead * hd) x x' l _ (hagree l hl)

theorem attnWeight_query_congr (ex : ℚ → ℚ) (scale : ℚ) (dk : Nat)
    (mask : Nat → Nat → Bool) (q q' k : Nat → Nat → ℚ) (i j : Nat)
    (hq : ∀ e, q i e = q' i e) :
    attnWeight ex scale dk mask q k i j =
      attnWeight ex scale dk mask q' k i j := by
  unfold attnWeight
  by_cases hm : mask i j
  · have hdot : dotQ dk (q i) (k j) = dotQ dk (q' i) (k j) := by
      unfold dotQ
      exact Finset.sum_congr rfl (fun e _ => by rw [hq e])
    simp only [hm, if_true, hdot]
  · simp [hm]

/-- Scaled dot-product attention at row `i` depends on the query tensor only
through its row `i`. -/
theorem sdpAttention_query_congr (ex : ℚ → ℚ) (scale : ℚ)
    (wdrop : Nat → Nat → ℚ) (S dk : Nat) (mask : Nat → Nat → Bool)
    (q q' k v : Nat → Nat → ℚ) (i t : Nat) (hq : ∀ e, q i e = q' i e) :
    sdpAttention ex scale wdrop S dk mask q k v i t =
      sdpAttention ex scale wdrop S dk mask q' k v i t := by
  have hw : ∀ j, attnWeight ex scale dk mask q k i j =
      attnWeight ex scale dk mask q' k i j :=
    fun j => attnWeight_query_congr ex scale dk mask q q' k i j hq
  unfold sdpAttention softmaxRow
  have hden : (∑ l ∈ Finset.range S, attnWeight ex scale dk mask q k i l)
      = ∑ l ∈ Finset.range S, attnWeight ex scale dk mask q' k i l :=
    Finset.sum_congr rfl (fun l _ => hw l)
  apply Finset.sum_congr rfl
  intro j _
  rw [hw j, hden]

/-- Cross-attention at row `i` depends on the externally supplied query only
through its row `i`. -/
theorem mhaCrossForward_query_congr (ex : ℚ → ℚ) (scale : ℚ)
    (wdrop : Nat → Nat → ℚ) (w : MHAWeights) (nHead hd Skv : Nat)
    (mask : Nat → Nat → Bool) (q q' k v : Nat → Nat → ℚ) (i c : Nat)
    (hq : ∀ e, q i e = q' i e) :
    mhaCrossForward ex scale wdrop w nHead hd Skv mask q k v i c =
      mhaCrossForward ex scale wdrop w nHead hd Skv mask q' k v i c := by
  unfold mhaCrossForward linearQ
  congr 1
  apply Finset.sum_congr rfl
  intro e _
  congr 1
  apply sdpAttention_query_congr
  intro u
  exact hq (e / hd * hd + u)

/-! ## Claims about multi-head attention values -/

/-- C2: for any causal mask (one that only permits attending to positions
`j ≤ i`), the self-attention output of `MultiHeadAttention.forward` at position
`i` is independent of the input at positions `j > i`: two inputs that agree at
all positions `≤ i` yield identical outputs at position `i`, for every choice
of weights, softmax exponential, scaling and attention-weight dropout. -/
theorem mha_causal_independence (ex : ℚ → ℚ) (scale : ℚ)
    (wdrop : Nat → Nat → ℚ) (w : MHAWeights) (nHead hd S : Nat)
    (mask : Nat → Nat → Bool) (x x' : Nat → Nat → ℚ) (i c : Nat)
    (hmask : ∀ a b, mask a b = true → b ≤ a) (hiS : i < S)
    (hagree : ∀ j, j ≤ i → ∀ e, x j e = x' j e) :
    mhaSelfForward ex scale wdrop w nHead hd S mask x i c =
      mhaSelfForward ex scale wdrop w nHead hd S mask x' i c :=
  mhaSelfForward_causal_congr ex scale wdrop w nHead hd S S mask x x' i c
    hmask hiS (le_refl S) hagree

/-- C2, witness for `mha_causal_independence`: one head of width 1 over two
positions with the strict causal mask; the two inputs agree at position 0 and
differ at the future position 1, yet the outputs at position 0 coincide. -/
theorem mha_causal_independence_witness :
    mhaSelfForward (fun a => a + 1) 1 (fun _ _ => 1)
      ⟨fun _ _ => 1, fun _ => 0, fun _ _ => 1, fun _ => 0⟩ 1 1 2
      (fun a b => decide (b ≤ a)) (fun s _ => (s : ℚ)) 0 0 =
    mhaSelfForward (fun a => a + 1) 1 (fun _ _ => 1)
      ⟨fun _ _ => 1, fun _ => 0, fun _ _ => 1, fun _ => 0⟩ 1 1 2
      (fun a b => decide (b ≤ a)) (fun s _ => if s = 0 then 0 else 7) 0 0 :=
  mha_causal_independence (fun a => a + 1) 1 (fun _ _ => 1)
    ⟨fun _ _ => 1, fun _ => 0, fun _ _ => 1, fun _ => 0⟩ 1 1 2
    (fun a b => decide (b ≤ a)) (fun s _ => (s : ℚ))
    (fun s _ => if s = 0 then 0 else 7) 0 0
    (fun a b h => of_decide_eq_true h) (by decide)
    (fun j hj e => by
      have hj0 : j = 0 := Nat.le_zero.mp hj
      subst hj0
      simp)

/-- C5 (amended): residual dropout after the final projection is applied by
the `MultiHeadAttention` of `common/attention.py`, whose training-mode return
value is the residual-dropout multiplier applied to its eval-mode return value
(the projected head concatenation); the `MultiHeadAttention` of
`transformer/attention.py` returns the raw `c_proj` output with no residual
dropout (see `mha_no_resid_dropout_cex`). -/
theorem common_mha_resid_dropout (ex : ℚ → ℚ) (scale : ℚ)
    (wdrop rdrop : Nat → Nat → ℚ) (w : MHAWeights) (nHead hd S : Nat)
    (isCausal : Bool) (x : Nat → Nat → ℚ) (i c : Nat) :
    commonMhaForward ex scale wdrop rdrop w nHead hd S isCausal x i c =
      rdrop i c *
        commonMhaForward ex scale wdrop (fun _ _ => 1) w nHead hd S isCausal
          x i c := by
  unfold commonMhaForward
  rw [one_mul]

/-- C5, counterexample to the claim as stated against
`src/transformer/attention.py`: a concrete one-head instance whose `c_proj`
output at position 0, channel 0 is `1`; a training-mode residual-dropout draw
with keep-multiplier `2` would return `2`, but the function returns the raw
projection `1` — the returned tensor is not the dropout of the projection. -/
theorem mha_no_resid_dropout_cex :
    mhaSelfForward (fun _ => 1) 1 (fun _ _ => 1)
      ⟨fun _ _ => 1, fun _ => 0, fun _ _ => 1, fun _ => 0⟩ 1 1 1
      (fun _ _ => true) (fun _ _ => 1) 0 0 = 1 ∧
    (2 : ℚ) * 1 ≠
      mhaSelfForward (fun _ => 1) 1 (fun _ _ => 1)
        ⟨fun _ _ => 1, fun _ => 0, fun _ _ => 1, fun _ => 0⟩ 1 1 1
        (fun _ _ => true) (fun _ _ => 1) 0 0 := by
  constructor
  · simp [mhaSelfForward, linearQ, sdpAttention, softmaxRow, attnWeight,
      dotQ, cAttn, qHead, kHead, vHead]
  · intro h
    rw [show mhaSelfForward (fun _ => 1) 1 (fun _ _ => 1)
        ⟨fun _ _ => 1, fun _ => 0, fun _ _ => 1, fun _ => 0⟩ 1 1 1
        (fun _ _ => true) (fun _ _ => 1) 0 0 = 1 from by
      simp [mhaSelfForward, linearQ, sdpAttention, softmaxRow, attnWeight,
        dotQ, cAttn, qHead, kHead, vHead]] at h
    norm_num at h

end Sequelize

namespace Sequelize

/-! ## Shape-level helper lemmas -/

theorem viewShape_exact (s t : Shape) (h : s.prod = t.prod) :
    viewShape s t = some t := by
  unfold viewShape
  rw [if_pos h]

theorem viewShape_merge (b n H D : Nat) :
    viewShape [b, n, H * D] [b, n, H, D] = some [b, n, H, D] :=
  viewShape_exact _ _ (by simp [Nat.mul_assoc])

theorem viewShape_back (b n H D : Nat) :
    viewShape [b, n, H, D] [b, n, H * D] = some [b, n, H * D] :=
  viewShape_exact _ _ (by simp [Nat.mul_assoc])

theorem split3Shape_exact (b n M : Nat) (h : 0 < M) :
    split3Shape M [b, n, 3 * M] = some ([b, n, M], [b, n, M], [b, n, M]) := by
  have h1 : 2 * M < 3 * M := by omega
  have h3 : 3 * M - 2 * M = M := by omega
  simp [split3Shape, h1, h, h3]

theorem linearShape_exact (inF outF b n : Nat) :
    linearShape inF outF [b, n, inF] = some [b, n, outF] := by
  simp [linearShape]

theorem sdpaShape_self (b h s d : Nat) :
    sdpaShape [b, h, s, d] [b, h, s, d] [b, h, s, d] none = some [b, h, s, d] := by
  simp [sdpaShape]

/-! ## Claims about construction and shapes -/

/-- C7: constructing `MultiHeadAttention` succeeds exactly when the model
width is evenly divisible by the head count — an indivisible configuration
fails the construction-time assert, before any tensor operation — and every
successfully stored configuration satisfies the invariant: the head split
`d_model // n_head` tiles the width exactly. -/
theorem mha_init_divisibility (dModel nHead : Nat) :
    ((mhaInit dModel nHead).isSome = (dModel % nHead == 0)) ∧
    (0 < nHead → ∀ cfg, mhaInit dModel nHead = some cfg →
      cfg.nHead * (cfg.dModel / cfg.nHead) = cfg.dModel) := by
  constructor
  · unfold mhaInit
    by_cases h : dModel % nHead = 0
    · simp [h]
    · simp [h]
  · intro _ cfg hcfg
    unfold mhaInit at hcfg
    by_cases h : dModel % nHead = 0
    · rw [if_pos h] at hcfg
      cases hcfg
      exact Nat.mul_div_cancel' (Nat.dvd_of_mod_eq_zero h)
    · rw [if_neg h] at hcfg
      cases hcfg

/-- C7, witness for `mha_init_divisibility`: the valid configuration
`d_model = 32`, `n_head = 4` of the end-to-end scenario constructs, and the
invalid `d_model = 32`, `n_head = 5` fails. -/
theorem mha_init_divisibility_witness :
    (mhaInit 32 4).isSome = (32 % 4 == 0) ∧
    (4 : Nat) * (32 / 4) = 32 ∧
    (mhaInit 32 5).isSome = (32 % 5 == 0) :=
  ⟨(mha_init_divisibility 32 4).1,
   (mha_init_divisibility 32 4).2 (by decide) ⟨32, 4⟩ (by decide),
   (mha_init_divisibility 32 5).1⟩

/-- C6: in the self-attention case (no external query/key/value, no mask),
`MultiHeadAttention.forward` on an input of shape `(B, S, d_model)` succeeds
for every batch size and sequence length and returns exactly the input shape
`(B, S, d_model)`, provided the construction invariant
`d_model = n_head * head_dim` holds. -/
theorem mha_self_shape_preserved (dModel nHead hd B S : Nat)
    (hn : 0 < nHead) (hhd : 0 < hd) (hdm : dModel = nHead * hd) :
    mhaForwardShape dModel nHead [B, S, dModel] none none =
      some [B, S, dModel] := by
  subst hdm
  have hdiv : nHead * hd / nHead = hd := Nat.mul_div_cancel_left hd hn
  have hM : 0 < nHead * hd := Nat.mul_pos hn hhd
  have hlin := linearShape_exact (nHead * hd) (3 * (nHead * hd)) B S
  have hsplit := split3Shape_exact B S (nHead * hd) hM
  have hview1 := viewShape_merge B S nHead hd
  have hview2 := viewShape_back B S nHead hd
  have hsdpa := sdpaShape_self B nHead S hd
  have hlin2 := linearShape_exact (nHead * hd) (nHead * hd) B S
  simp [mhaForwardShape, hdiv, hlin, hsplit, hview1, transpose12, hsdpa,
    hview2, hlin2, Option.bind_eq_bind]

/-- C6, witness for `mha_self_shape_preserved`: the scenario configuration
`d_model = 32 = 4 * 8`, `n_head = 4` preserves the shape `(2, 7, 32)`. -/
theorem mha_self_shape_preserved_witness :
    mhaForwardShape 32 4 [2, 7, 32] none none = some [2, 7, 32] :=
  mha_self_shape_preserved 32 4 8 2 7 (by decide) (by decide) (by decide)

/-- C4 (the code contradicts the claim): `MultiHeadAttention.forward` with
externally supplied cross-attention tensors — query of sequence length 1 and
key/value from an encoder memory of sequence length 2, the very shapes the
`generate` loop produces at its first decode step for a length-2 source —
raises a shape error instead of returning a query-length output:
`view(B, S, n_head, E // n_head)` is applied to `k` with the *query's* length
`S = 1`, but `k` holds `1 * 2 * 2` elements. -/
theorem mha_cross_shape_error :
    mhaForwardShape 2 1 [1, 1, 2]
      (some ([1, 1, 2], [1, 2, 2], [1, 2, 2])) none = none := by
  decide

end Sequelize

namespace Sequelize

/-! ## Prefix consistency of the decode path -/

theorem linearQ_congr (W : Nat → Nat → ℚ) (b : Nat → ℚ) (inF : Nat)
    (x x' : Nat → ℚ) (c : Nat) (h : ∀ e, x e = x' e) :
    linearQ W b inF x c = linearQ W b inF x' c := by
  unfold linearQ
  congr 1
  exact Finset.sum_congr rfl (fun e _ => by rw [h e])

theorem ffn_congr (act : ℚ → ℚ) (W1 : Nat → Nat → ℚ) (b1 : Nat → ℚ)
    (W2 : Nat → Nat → ℚ) (b2 : Nat → ℚ) (dModel dHidden : Nat)
    (x x' : Nat → ℚ) (c : Nat) (h : ∀ e, x e = x' e) :
    ffn act W1 b1 W2 b2 dModel dHidden x c =
      ffn act W1 b1 W2 b2 dModel dHidden x' c := by
  unfold ffn
  apply linearQ_congr
  intro hh
  exact congrArg act (linearQ_congr W1 b1 dModel x x' hh h)

theorem selfSub_causal_congr (M : DecoderModel) (P : DecBlockParams)
    (m n : Nat) (mask : Nat → Nat → Bool) (x x' : Nat → Nat → ℚ)
    (hmask : ∀ a b, mask a b = true → b ≤ a) (hmn : m ≤ n)
    (hagree : ∀ q, q < m → ∀ e, x q e = x' q e) :
    ∀ p, p < m → ∀ c,
      selfSub M P n mask x p c = selfSub M P m mask x' p c := by
  intro p hp c
  unfold selfSub
  have hfun : (fun e => x p e +
        mhaSelfForward M.ex M.scale (fun _ _ => 1) P.saW M.nHead M.hd n mask
          x p e)
      = fun e => x' p e +
        mhaSelfForward M.ex M.scale (fun _ _ => 1) P.saW M.nHead M.hd m mask
          x' p e := by
    funext e
    rw [hagree p hp e,
      mhaSelfForward_causal_congr M.ex M.scale (fun _ _ => 1) P.saW M.nHead
        M.hd m n mask x x' p e hmask hp hmn
        (fun j hj e' => hagree j (by omega) e')]
  rw [hfun]

theorem crossSub_row_congr (M : DecoderModel) (P : DecBlockParams)
    (Sm : Nat) (memMask : Nat → Nat → Bool) (mem : Nat → Nat → ℚ)
    (x x' : Nat → Nat → ℚ) (p : Nat) (hrow : ∀ e, x p e = x' p e) :
    ∀ c, crossSub M P Sm memMask mem x p c =
      crossSub M P Sm memMask mem x' p c := by
  intro c
  unfold crossSub
  have hfun : (fun e => x p e +
        mhaCrossForward M.ex M.scale (fun _ _ => 1) P.caW M.nHead M.hd Sm
          memMask x mem mem p e)
      = fun e => x' p e +
        mhaCrossForward M.ex M.scale (fun _ _ => 1) P.caW M.nHead M.hd Sm
          memMask x' mem mem p e := by
    funext e
    rw [hrow e,
      mhaCrossForward_query_congr M.ex M.scale (fun _ _ => 1) P.caW M.nHead
        M.hd Sm memMask x x' mem mem p e hrow]
  rw [hfun]

theorem ffnSub_row_congr (M : DecoderModel) (P : DecBlockParams)
    (x x' : Nat → Nat → ℚ) (p : Nat) (hrow : ∀ e, x p e = x' p e) :
    ∀ c, ffnSub M P x p c = ffnSub M P x' p c := by
  intro c
  unfold ffnSub
  have hfun : (fun e => x p e +
        ffn M.act P.ffnW1 P.ffnB1 P.ffnW2 P.ffnB2 (M.nHead * M.hd) M.dHidden
          (x p) e)
      = fun e => x' p e +
        ffn M.act P.ffnW1 P.ffnB1 P.ffnW2 P.ffnB2 (M.nHead * M.hd) M.dHidden
          (x' p) e := by
    funext e
    rw [hrow e,
      ffn_congr M.act P.ffnW1 P.ffnB1 P.ffnW2 P.ffnB2 (M.nHead * M.hd)
        M.dHidden (x p) (x' p) e hrow]
  rw [hfun]

theorem decBlock_causal_congr (M : DecoderModel) (P : DecBlockParams)
    (m n Sm : Nat) (mask memMask : Nat → Nat → Bool) (mem : Nat → Nat → ℚ)
    (x x' : Nat → Nat → ℚ)
    (hmask : ∀ a b, mask a b = true → b ≤ a) (hmn : m ≤ n)
    (hagree : ∀ q, q < m → ∀ e, x q e = x' q e) :
    ∀ p, p < m → ∀ c,
      decBlock M P n Sm mask memMask mem x p c =
        decBlock M P m Sm mask memMask mem x' p c := by
  intro p hp c
  unfold decBlock
  apply ffnSub_row_congr
  intro e
  apply crossSub_row_congr
  intro u
  exact selfSub_causal_congr M P m n mask x x' hmask hmn hagree p hp u

theorem decoderStack_causal_congr (M : DecoderModel)
    (blocks : List DecBlockParams) (m n Sm : Nat)
    (mask memMask : Nat → Nat → Bool) (mem : Nat → Nat → ℚ)
    (hmask : ∀ a b, mask a b = true → b ≤ a) (hmn : m ≤ n) :
    ∀ (x x' : Nat → Nat → ℚ), (∀ q, q < m → ∀ e, x q e = x' q e) →
      ∀ p, p < m → ∀ c,
        decoderStack M blocks n Sm mask memMask mem x p c =
          decoderStack M blocks m Sm mask memMask mem x' p c := by
  induction blocks with
  | nil =>
      intro x x' hagree p hp c
      exact hagree p hp c
  | cons P rest ih =>
      intro x x' hagree p hp c
      have hstep : ∀ q, q < m → ∀ e,
          decBlock M P n Sm mask memMask mem x q e =
            decBlock M P m Sm mask memMask mem x' q e :=
        fun q hq e =>
          decBlock_causal_congr M P m n Sm mask memMask mem x x' hmask hmn
            hagree q hq e
      exact ih (decBlock M P n Sm mask memMask mem x)
        (decBlock M P m Sm mask memMask mem x') hstep p hp c

/-! ## The claim about encode/memory reuse across growing decodes -/

/-- C8 (amended): with one fixed encoder memory and a causal target mask,
decoding a target sequence of length `m` and decoding any extension of it to
length `n ≥ m` (in particular the single combined call on the full sequence)
yield identical decoder outputs at every shared position `p < m`: no
recomputation drift occurs across the repeated `_decode` calls.  The
`generate` loop, however, passes `mask=None` (every position attends
everywhere), and then the shared-position outputs do drift
(`decode_no_mask_drift_cex`); only the last position of each call — the one
`generate` samples from — is unaffected. -/
theorem decode_extension_consistent (M : DecoderModel) (tgt : Nat → Nat)
    (m n Sm : Nat) (mask memMask : Nat → Nat → Bool) (mem : Nat → Nat → ℚ)
    (p c : Nat) (hmask : ∀ a b, mask a b = true → b ≤ a)
    (hp : p < m) (hmn : m ≤ n) :
    decodeOut M tgt n Sm mask memMask mem p c =
      decodeOut M tgt m Sm mask memMask mem p c := by
  unfold decodeOut
  exact decoderStack_causal_congr M M.blocks m n Sm mask memMask mem hmask hmn
    (fun i e => pEmb M.embT M.embScale M.posT tgt i e)
    (fun i e => pEmb M.embT M.embScale M.posT tgt i e)
    (fun q _ e => rfl) p hp c

/-- C8, witness for `decode_extension_consistent`: the concrete one-block
decoder under the strict causal mask; decoding two target positions and one
target position against the same length-1 memory agree at position 0. -/
theorem decode_extension_consistent_witness :
    decodeOut demoDecoder demoTgt 2 1 (fun a b => decide (b ≤ a))
      (fun _ _ => true) (fun _ _ => 0) 0 0 =
    decodeOut demoDecoder demoTgt 1 1 (fun a b => decide (b ≤ a))
      (fun _ _ => true) (fun _ _ => 0) 0 0 :=
  decode_extension_consistent demoDecoder demoTgt 1 2 1
    (fun a b => decide (b ≤ a)) (fun _ _ => true) (fun _ _ => 0) 0 0
    (fun a b h => of_decide_eq_true h) (by decide) (by decide)

/-- C8, counterexample to the claim as stated: `generate` calls `_decode`
with `mask=None` — embedded as the all-true mask — and then the decoder
output at the shared position 0 differs between decoding the length-1 target
and decoding its length-2 extension against the same fixed length-1 memory:
the unmasked self-attention at position 0 also averages over position 1. -/
theorem decode_no_mask_drift_cex :
    decodeOut demoDecoder demoTgt 2 1 (fun _ _ => true) (fun _ _ => true)
      (fun _ _ => 0) 0 0 ≠
    decodeOut demoDecoder demoTgt 1 1 (fun _ _ => true) (fun _ _ => true)
      (fun _ _ => 0) 0 0 := by
  have h2 : decodeOut demoDecoder demoTgt 2 1 (fun _ _ => true)
      (fun _ _ => true) (fun _ _ => 0) 0 0 = 67 / 6 := by
    norm_num [decodeOut, decoderStack, decBlock, ffnSub, crossSub, selfSub,
      mhaSelfForward, mhaCrossForward, sdpAttention, softmaxRow, attnWeight,
      dotQ, cAttn, qHead, kHead, vHead, linearQ, ffn, pEmb, demoDecoder,
      demoTgt, Finset.sum_range_succ]
  have h1 : decodeOut demoDecoder demoTgt 1 1 (fun _ _ => true)
      (fun _ _ => true) (fun _ _ => 0) 0 0 = 10 := by
    norm_num [decodeOut, decoderStack, decBlock, ffnSub, crossSub, selfSub,
      mhaSelfForward, mhaCrossForward, sdpAttention, softmaxRow, attnWeight,
      dotQ, cAttn, qHead, kHead, vHead, linearQ, ffn, pEmb, demoDecoder,
      demoTgt, Finset.sum_range_succ]
  rw [h1, h2]
  norm_num

end Sequelize
